import Mathlib

/-!
Verification of the Paohuzi rule engine.

Shallow embedding of the repository's core modules:
`core/card.py`, `core/hand.py`, `core/player.py`,
`rules/pattern_matcher.py`, `rules/huxi_calculator.py`,
`rules/score_calculator.py`, `rules/win_checker.py`,
`config/game_config.py`.

Python exceptions are modelled with `Option`: a `none` result stands for a
raised exception (`ValueError`).  In-place mutation of Python objects is
modelled by returning the updated record.  Python's `Counter`/dict iteration
(insertion order, i.e. first-occurrence order) is modelled by `firstOccs`.
-/

namespace Paohuzi

/-- `core/card.py`: a tile has a value 1..10 and a rank flag
(`is_uppercase`, the "major" written form).  Equality in Python compares
both fields; this is definitional equality here. -/
structure Card where
  value : Nat
  is_uppercase : Bool
deriving DecidableEq, Repr

/-- `Card.__post_init__` accepts only values 1..10; a constructed Python
`Card` always satisfies this. -/
def Card.valid (c : Card) : Prop := 1 ≤ c.value ∧ c.value ≤ 10

instance (c : Card) : Decidable c.valid := by
  unfold Card.valid; infer_instance

/-- `config/game_config.py`: `MIN_HUXI_TO_WIN = 15`. -/
def MIN_HUXI_TO_WIN : Nat := 15

/-- `config/game_config.py`: `BASE_SCORE = 1`. -/
def BASE_SCORE : Nat := 1

/-- `config/game_config.py`: `HUXI_PER_EXTRA_SCORE = 3`. -/
def HUXI_PER_EXTRA_SCORE : Nat := 3

/-- `config/game_config.py`: `SPECIAL_SEQUENCES = [[1,2,3],[2,7,10]]`. -/
def SPECIAL_SEQUENCES : List (List Nat) := [[1, 2, 3], [2, 7, 10]]

/-- `core/hand.py`: an entry of `Hand.exposed_groups` — the dict
`{'type': ..., 'cards': ..., 'is_concealed': ...}` built by
`Hand.add_exposed_group`.  The `type` field is one of the strings
`"chi"`, `"peng"`, `"pao"`, `"wei"`, `"ti"`. -/
structure ExposedGroup where
  type : String
  cards : List Card
  is_concealed : Bool
deriving DecidableEq, Repr

/-- `core/hand.py`: the `Hand` object — concealed cards, the single
pending drawn card, and the committed groups. -/
structure Hand where
  cards : List Card
  drawn_card : Option Card
  exposed_groups : List ExposedGroup
deriving DecidableEq, Repr

/-- First-occurrence deduplication: the key order of a Python
`dict`/`Counter` built by inserting the elements of a list in order. -/
def firstOccs {α : Type} [DecidableEq α] (l : List α) : List α :=
  l.foldl (fun acc c => if c ∈ acc then acc else acc ++ [c]) []

/-! ## `core/hand.py`: Hand methods -/

/-- `Hand.draw_card`: raises (`none`) if a drawn card is already pending,
otherwise stores the card in `drawn_card` (the concealed cards are not
touched). -/
def Hand.draw_card (h : Hand) (card : Card) : Option Hand :=
  match h.drawn_card with
  | some _ => none
  | none => some { h with drawn_card := some card }

/-- `Hand.discard_drawn_card`: raises (`none`) if no drawn card is pending,
otherwise returns the pending card and clears it. -/
def Hand.discard_drawn_card (h : Hand) : Option (Card × Hand) :=
  match h.drawn_card with
  | none => none
  | some card => some (card, { h with drawn_card := none })

/-- `Hand.remove_card`: removes the first occurrence of `card` from the
concealed cards, returning whether it was present. -/
def Hand.remove_card (h : Hand) (card : Card) : Bool × Hand :=
  if card ∈ h.cards then (true, { h with cards := h.cards.erase card })
  else (false, h)

/-- The removal loop of `Hand.remove_cards`
(`for card in cards: self.cards.remove(card)`): `list.remove` raises
`ValueError` when the card is absent; the pair returned is
(no exception was raised, the card list at the moment the loop stopped). -/
def removeEach (cs : List Card) : List Card → Bool × List Card
  | [] => (true, cs)
  | card :: rest =>
    if card ∈ cs then removeEach (cs.erase card) rest else (false, cs)

/-- `Hand.remove_cards`: first checks each requested card for membership in
the (original) concealed list and returns `false` leaving the hand alone if
one is absent; then removes them one by one.  The removal loop can still
raise (`none`) when a card is requested more often than it is held, in
which case the cards removed before the exception stay removed. -/
def Hand.remove_cards (h : Hand) (cards : List Card) : Option Bool × Hand :=
  if cards.all (fun card => card ∈ h.cards) then
    match removeEach h.cards cards with
    | (true, cs) => (some true, { h with cards := cs })
    | (false, cs) => (none, { h with cards := cs })
  else (some false, h)

/-- `Hand.get_total_count`: concealed cards + pending drawn card + cards
inside committed groups. -/
def Hand.get_total_count (h : Hand) : Nat :=
  let exposed_count := (h.exposed_groups.map (fun group => group.cards.length)).sum
  let drawn_count := match h.drawn_card with | some _ => 1 | none => 0
  h.cards.length + drawn_count + exposed_count

/-- `Hand.count_exact_card`: number of concealed cards exactly equal to
`target_card`, optionally counting the pending drawn card too. -/
def Hand.count_exact_card (h : Hand) (target_card : Card)
    (include_drawn : Bool) : Nat :=
  (h.cards.filter (fun card => card == target_card)).length +
    (if include_drawn && h.drawn_card == some target_card then 1 else 0)

/-- The test applied to each committed group by `Hand.can_ti`,
`Player.can_pao` and `Player.do_ti`:
`group['type'] == 'wei' and group['cards'] and group['cards'][0] == card`. -/
def weiGroupFor (card : Card) (group : ExposedGroup) : Bool :=
  group.type == "wei" && !group.cards.isEmpty && group.cards.head? == some card

/-- `Hand.can_ti`: a drawn card is pending and either the hand holds 3 exact
copies of it, or a committed wei group of it exists. -/
def Hand.can_ti (h : Hand) : Bool :=
  match h.drawn_card with
  | none => false
  | some d =>
    h.count_exact_card d false == 3 || h.exposed_groups.any (weiGroupFor d)

/-! ## `rules/pattern_matcher.py` -/

/-- The grouping `card_counts` used throughout `PatternMatcher`: the cards
of `cards` exactly equal to `card`, in order.  (Python groups by the key
`(card.value, card.is_uppercase)`, which is exactly card equality.) -/
def sameCards (cards : List Card) (card : Card) : List Card :=
  cards.filter (fun c => c == card)

/-- `PatternMatcher.find_triplets`: for every card class with at least 3
members, its first 3 members, in class first-occurrence order. -/
def find_triplets (cards : List Card) : List (List Card) :=
  (firstOccs cards).filterMap (fun card =>
    if 3 ≤ (sameCards cards card).length then some ((sameCards cards card).take 3)
    else none)

/-- `PatternMatcher.find_quadruplets`: every card class with exactly 4
members, whole. -/
def find_quadruplets (cards : List Card) : List (List Card) :=
  (firstOccs cards).filterMap (fun card =>
    if (sameCards cards card).length = 4 then some (sameCards cards card)
    else none)

/-- `PatternMatcher.find_pairs`: for every card class with at least 2
members, its first 2 members. -/
def find_pairs (cards : List Card) : List (List Card) :=
  (firstOccs cards).filterMap (fun card =>
    if 2 ≤ (sameCards cards card).length then some ((sameCards cards card).take 2)
    else none)

/-- `PatternMatcher.is_valid_sequence`: exactly 3 cards, all of one rank,
whose sorted values are a special sequence or three consecutive values. -/
def is_valid_sequence (cards : List Card) : Bool :=
  if cards.length != 3 then false
  else
    match cards.head? with
    | none => false
    | some c0 =>
      if !(cards.all (fun c => c.is_uppercase == c0.is_uppercase)) then false
      else
        let values := List.insertionSort (· ≤ ·) (cards.map (fun c => c.value))
        if SPECIAL_SEQUENCES.contains values then true
        else
          match values with
          | [v0, v1, v2] => v1 == v0 + 1 && v2 == v1 + 1
          | _ => false

/-- `PatternMatcher.is_special_sequence`: exactly 3 cards, one rank, whose
sorted values are `[1,2,3]` or `[2,7,10]`. -/
def is_special_sequence (cards : List Card) : Bool :=
  if cards.length != 3 then false
  else
    match cards.head? with
    | none => false
    | some c0 =>
      if !(cards.all (fun c => c.is_uppercase == c0.is_uppercase)) then false
      else
        SPECIAL_SEQUENCES.contains
          (List.insertionSort (· ≤ ·) (cards.map (fun c => c.value)))

/-- The per-rank `value_cards` grouping of `PatternMatcher.find_sequences`:
cards of one rank carrying the given value. -/
def valueCards (cards : List Card) (u : Bool) (v : Nat) : List Card :=
  (cards.filter (fun c => c.is_uppercase == u)).filter (fun c => c.value == v)

/-- A placeholder card; never produced by reachable code paths (used only
where Python indexes a list it has just checked to be nonempty). -/
def dummyCard : Card := ⟨0, false⟩

/-- `PatternMatcher.find_sequences`: for each rank, the special sequences
whose three values are all present (one witness card per value), then every
consecutive triple of distinct sorted values that is not special. -/
def find_sequences (cards : List Card) : List (List Card) :=
  [false, true].flatMap (fun u =>
    let present := fun v => !(valueCards cards u v).isEmpty
    let witness := fun v => (valueCards cards u v).headD dummyCard
    let specials := SPECIAL_SEQUENCES.filterMap (fun sv =>
      if sv.all (fun v => present v) then some (sv.map witness) else none)
    let sorted_values :=
      List.insertionSort (· ≤ ·)
        (firstOccs ((cards.filter (fun c => c.is_uppercase == u)).map
          (fun c => c.value)))
    let normals := (List.range (sorted_values.length - 2)).filterMap (fun i =>
      match sorted_values[i]?, sorted_values[i+1]?, sorted_values[i+2]? with
      | some v1, some v2, some v3 =>
        if v2 == v1 + 1 && v3 == v2 + 1 then
          if !(SPECIAL_SEQUENCES.contains [v1, v2, v3]) then
            some [witness v1, witness v2, witness v3]
          else none
        else none
      | _, _, _ => none)
    specials ++ normals)

/-- `PatternMatcher.remove_cards_from_list`: remove the first occurrence of
each card of `to_remove` (skipping the ones not present). -/
def remove_cards_from_list (cards to_remove : List Card) : List Card :=
  to_remove.foldl (fun remaining card =>
    if card ∈ remaining then remaining.erase card else remaining) cards

/-! ## `rules/huxi_calculator.py` and `rules/score_calculator.py` -/

/-- `HuxiCalculator.calculate_triplet_huxi`: raises (`none`) unless given 3
identical cards; concealed (`is_exposed = false`) minor 3 / major 6,
exposed minor 1 / major 3. -/
def calculate_triplet_huxi (cards : List Card) (is_exposed : Bool) :
    Option Nat :=
  if cards.length != 3 then none
  else
    match cards.head? with
    | none => none
    | some c0 =>
      if !(cards.all (fun c => c == c0)) then none
      else if is_exposed then some (if c0.is_uppercase then 3 else 1)
      else some (if c0.is_uppercase then 6 else 3)

/-- `HuxiCalculator.calculate_quadruplet_huxi`: raises (`none`) unless given
4 identical cards; concealed minor 9 / major 12, exposed minor 6 / major 9. -/
def calculate_quadruplet_huxi (cards : List Card) (is_exposed : Bool) :
    Option Nat :=
  if cards.length != 4 then none
  else
    match cards.head? with
    | none => none
    | some c0 =>
      if !(cards.all (fun c => c == c0)) then none
      else if is_exposed then some (if c0.is_uppercase then 9 else 6)
      else some (if c0.is_uppercase then 12 else 9)

/-- `HuxiCalculator.calculate_sequence_huxi`: special sequences score
minor 3 / major 6, everything else 0 (total, never raises). -/
def calculate_sequence_huxi (cards : List Card) : Nat :=
  if cards.length != 3 then 0
  else if !(is_valid_sequence cards) then 0
  else if is_special_sequence cards then
    match cards.head? with
    | some c0 => if c0.is_uppercase then 6 else 3
    | none => 0
  else 0

/-- The per-group contribution of the exposed-group loop shared by
`HuxiCalculator.calculate_hand_huxi` and
`HuxiCalculator.calculate_win_huxi`: peng is an exposed triplet, wei a
concealed triplet, pao an exposed and ti a concealed quadruplet, chi a
sequence; any other tag contributes nothing. -/
def groupHuxi (group : ExposedGroup) : Option Nat :=
  if group.type == "peng" then calculate_triplet_huxi group.cards true
  else if group.type == "wei" then calculate_triplet_huxi group.cards false
  else if group.type == "pao" || group.type == "ti" then
    calculate_quadruplet_huxi group.cards (group.type == "pao")
  else if group.type == "chi" then some (calculate_sequence_huxi group.cards)
  else some 0

/-- Sum of the committed groups' huxi (the first loop of
`calculate_win_huxi`); `none` when some group makes its huxi call raise. -/
def groupsHuxiSum : List ExposedGroup → Option Nat
  | [] => some 0
  | group :: rest =>
    match groupHuxi group, groupsHuxiSum rest with
    | some a, some b => some (a + b)
    | _, _ => none

/-- A win combination as found by `WinChecker._find_win_combination`:
the dict `{'triplets': ..., 'sequences': ..., 'pair': ...}`. -/
structure Combination where
  triplets : List (List Card)
  sequences : List (List Card)
  pair : List Card
deriving DecidableEq, Repr

/-- Sum of `Option Nat` values (exception-propagating addition). -/
def optAdd (a b : Option Nat) : Option Nat :=
  match a, b with
  | some x, some y => some (x + y)
  | _, _ => none

/-- `HuxiCalculator.calculate_win_huxi`: committed groups' huxi, plus each
combination triplet scored concealed, plus each combination sequence; the
pair scores nothing.  (`all_cards` is accepted and unused, as in the
source.)  `none` models a raised `ValueError`. -/
def calculate_win_huxi (all_cards : List Card)
    (exposed_groups : List ExposedGroup) (win_combination : Combination) :
    Option Nat :=
  let fromGroups := groupsHuxiSum exposed_groups
  let fromTriplets := win_combination.triplets.foldl
    (fun acc t => optAdd acc (calculate_triplet_huxi t false)) (some 0)
  let fromSequences := win_combination.sequences.foldl
    (fun acc s => optAdd acc (some (calculate_sequence_huxi s))) (some 0)
  let _ := all_cards
  optAdd (optAdd fromGroups fromTriplets) fromSequences

/-- `ScoreCalculator.calculate_score`: 0 below the 15-huxi floor, else the
base score plus one point per full 3 huxi above the floor. -/
def calculate_score (huxi : Nat) : Nat :=
  if huxi < MIN_HUXI_TO_WIN then 0
  else BASE_SCORE + (huxi - MIN_HUXI_TO_WIN) / HUXI_PER_EXTRA_SCORE

/-! ## `rules/win_checker.py` -/

/-- The forced-group extraction loop of
`WinChecker._find_win_combination`: walk the card classes in Counter
(first-occurrence) order; a class of exactly 4 contributes its first 3
copies as a forced triplet keeping the 4th in the pool, a class of exactly
3 contributes all 3; counts are taken on the original card list. -/
def findForcedLoop (orig : List Card) :
    List Card → List Card → List (List Card) × List Card
  | [], remaining => ([], remaining)
  | card :: classes, remaining =>
    let count := (sameCards orig card).length
    if count = 4 then
      let triplet := (sameCards remaining card).take 3
      let remaining' := ((remaining.erase card).erase card).erase card
      let rest := findForcedLoop orig classes remaining'
      (triplet :: rest.1, rest.2)
    else if count = 3 then
      let triplet := sameCards remaining card
      let remaining' := ((remaining.erase card).erase card).erase card
      let rest := findForcedLoop orig classes remaining'
      (triplet :: rest.1, rest.2)
    else findForcedLoop orig classes remaining

/-- Forced triplets and the remaining free pool, as extracted at the top of
`WinChecker._find_win_combination` (the spec's `findForcedGroups`). -/
def find_forced_groups (cards : List Card) :
    List (List Card) × List Card :=
  findForcedLoop cards (firstOccs cards) cards

/-- `WinChecker._try_form_sequences_recursive`, with a structural fuel
bound (each Python-level recursion step removes three cards, so
`cards.length + 1` fuel is always sufficient). -/
def try_form_sequences_recursive (fuel : Nat) (cards : List Card) : Bool :=
  match fuel with
  | 0 => false
  | fuel + 1 =>
    if cards.isEmpty then true
    else if cards.length % 3 != 0 then false
    else
      (find_sequences cards).any (fun seq =>
        if seq.all (fun c => c ∈ cards) then
          try_form_sequences_recursive fuel (remove_cards_from_list cards seq)
        else false)

/-- `WinChecker._can_form_all_sequences`. -/
def can_form_all_sequences (cards : List Card) : Bool :=
  if cards.isEmpty then true
  else if cards.length % 3 != 0 then false
  else try_form_sequences_recursive (cards.length + 1) cards

/-- `WinChecker._find_all_sequences`, with the same fuel convention. -/
def find_all_sequences (fuel : Nat) (cards : List Card) :
    Option (List (List Card)) :=
  match fuel with
  | 0 => none
  | fuel + 1 =>
    if cards.isEmpty then some []
    else if cards.length % 3 != 0 then none
    else
      (find_sequences cards).foldl (fun acc seq =>
        match acc with
        | some found => some found
        | none =>
          if seq.all (fun c => c ∈ cards) then
            match find_all_sequences fuel (remove_cards_from_list cards seq) with
            | some rest => some (seq :: rest)
            | none => none
          else none) none

/-- `WinChecker._try_find_sequences_and_pair`: try every pair candidate;
the rest must split into sequences. -/
def try_find_sequences_and_pair (cards : List Card) :
    Option (List (List Card) × List Card) :=
  if cards.length < 2 then none
  else
    (find_pairs cards).foldl (fun acc pair =>
      match acc with
      | some found => some found
      | none =>
        let remaining := remove_cards_from_list cards pair
        if remaining.length % 3 != 0 then none
        else if can_form_all_sequences remaining then
          match find_all_sequences (remaining.length + 1) remaining with
          | some sequences =>
            if !sequences.isEmpty && sequences.length * 3 == remaining.length
            then some (sequences, pair)
            else none
          | none => none
        else none) none

/-- `WinChecker._find_win_combination`: demands exactly 21 cards, extracts
the forced triplets, requires the remainder to leave room for one pair
(`len % 3 == 2`), and searches for sequences plus a pair. -/
def find_win_combination (cards : List Card) : Option Combination :=
  if cards.length != 21 then none
  else
    let forced := find_forced_groups cards
    if forced.2.length % 3 = 2 then
      match try_find_sequences_and_pair forced.2 with
      | some (sequences, pair) => some ⟨forced.1, sequences, pair⟩
      | none => none
    else none

/-- `WinChecker.can_win`, with the hand it leaves behind: the checker reads
`hand.cards`, `hand.drawn_card` and `hand.exposed_groups` (copying the card
list) and assigns to none of them, so the returned hand carries every field
unchanged.  The result `none` models a `ValueError` escaping from
`HuxiCalculator` on a malformed committed group. -/
def can_win_full (h : Hand) :
    Option (Bool × Nat × Option Combination) × Hand :=
  let all_cards := h.cards ++ (match h.drawn_card with
    | some c => [c]
    | none => [])
  let result :=
    match find_win_combination all_cards with
    | none => some (false, 0, none)
    | some win_combination =>
      match calculate_win_huxi all_cards h.exposed_groups win_combination with
      | none => none
      | some huxi =>
        if huxi < MIN_HUXI_TO_WIN then some (false, huxi, some win_combination)
        else some (true, huxi, some win_combination)
  (result,
    { cards := h.cards, drawn_card := h.drawn_card,
      exposed_groups := h.exposed_groups })

/-- `WinChecker.can_win`: the returned triple
(can win, huxi, combination). -/
def can_win (h : Hand) : Option (Bool × Nat × Option Combination) :=
  (can_win_full h).1

/-! ## `core/player.py`: the player actions under scrutiny.  `Player`
merely wraps its `Hand`, so the methods are embedded over `Hand`. -/

/-- `Player.can_pao`: exact copies held in hand plus the size of the first
committed wei group of the card must total 3. -/
def can_pao (h : Hand) (card : Card) : Bool :=
  let hand_count := h.count_exact_card card false
  let wei_count :=
    match h.exposed_groups.find? (weiGroupFor card) with
    | some group => group.cards.length
    | none => 0
  hand_count + wei_count == 3

/-- `Player.can_chi`: for every index pair `i < j` of concealed cards, keep
`[cards[i], cards[j]]` whenever `[card, cards[i], cards[j]]` is a valid
sequence. -/
def can_chi (h : Hand) (card : Card) : List (List Card) :=
  (List.range h.cards.length).flatMap (fun i =>
    (List.range' (i + 1) (h.cards.length - (i + 1))).filterMap (fun j =>
      match h.cards[i]?, h.cards[j]? with
      | some card1, some card2 =>
        if is_valid_sequence [card, card1, card2] then some [card1, card2]
        else none
      | _, _ => none))

/-- `Player.do_ti`: raises (`none`) unless `can_ti`; if a committed wei
group of the drawn card exists, pop it and append a ti group of its cards
plus the drawn card, otherwise consume 3 matching concealed cards plus the
drawn card; either way the pending card is cleared and the ti group is
appended last (`add_exposed_group('ti', ..., is_concealed=False)`). -/
def do_ti (h : Hand) : Option Hand :=
  if !h.can_ti then none
  else
    match h.drawn_card with
    | none => none
    | some drawn_card =>
      match h.exposed_groups.findIdx? (weiGroupFor drawn_card) with
      | some wei_group_idx =>
        match h.exposed_groups[wei_group_idx]? with
        | some wei_group =>
          some { cards := h.cards, drawn_card := none,
                 exposed_groups :=
                   (h.exposed_groups.eraseIdx wei_group_idx) ++
                     [⟨"ti", wei_group.cards ++ [drawn_card], false⟩] }
        | none => none
      | none =>
        let same_cards := (sameCards h.cards drawn_card).take 3
        let cards' := same_cards.foldl (fun cs card =>
          if card ∈ cs then cs.erase card else cs) h.cards
        some { cards := cards', drawn_card := none,
               exposed_groups :=
                 h.exposed_groups ++ [⟨"ti", same_cards ++ [drawn_card], false⟩] }

/-! ## Helper lemmas -/

lemma sameCards_eq_replicate (cards : List Card) (c : Card) :
    sameCards cards c = List.replicate (cards.count c) c := by
  induction cards with
  | nil => rfl
  | cons b t ih =>
    by_cases hb : b = c
    · subst hb
      simp [sameCards, List.filter_cons, List.count_cons, List.replicate_succ]
      simpa [sameCards] using ih
    · simp only [sameCards, List.filter_cons, List.count_cons, hb,
        beq_iff_eq, if_false, ite_false]
      simpa [sameCards, hb] using ih

lemma sameCards_length (cards : List Card) (c : Card) :
    (sameCards cards c).length = cards.count c := by
  rw [sameCards_eq_replicate]; simp

lemma erase3_spec (rem : List Card) (card : Card) (h3 : 3 ≤ rem.count card) :
    (((rem.erase card).erase card).erase card).length + 3 = rem.length ∧
    (((rem.erase card).erase card).erase card).count card + 3 = rem.count card ∧
    ∀ c : Card, c ≠ card →
      (((rem.erase card).erase card).erase card).count c = rem.count c := by
  have e1c : (rem.erase card).count card = rem.count card - 1 :=
    List.count_erase_self card rem
  have h1m : card ∈ rem := List.count_pos_iff.mp (by omega)
  have h2m : card ∈ rem.erase card := List.count_pos_iff.mp (by omega)
  have e2c : ((rem.erase card).erase card).count card =
      (rem.erase card).count card - 1 := List.count_erase_self card _
  have h3m : card ∈ (rem.erase card).erase card := List.count_pos_iff.mp (by omega)
  have e3c : (((rem.erase card).erase card).erase card).count card =
      ((rem.erase card).erase card).count card - 1 := List.count_erase_self card _
  have l1 : (rem.erase card).length = rem.length - 1 := List.length_erase_of_mem h1m
  have l2 : ((rem.erase card).erase card).length = (rem.erase card).length - 1 :=
    List.length_erase_of_mem h2m
  have l3 : (((rem.erase card).erase card).erase card).length =
      ((rem.erase card).erase card).length - 1 := List.length_erase_of_mem h3m
  have hcl : rem.count card ≤ rem.length := List.count_le_length card rem
  refine ⟨by omega, by omega, fun c hc => ?_⟩
  rw [List.count_erase_of_ne hc, List.count_erase_of_ne hc, List.count_erase_of_ne hc]

lemma findForcedLoop_count_of_not_mem (orig : List Card) (cls rem : List Card)
    (c : Card) (hc : c ∉ cls) :
    (findForcedLoop orig cls rem).2.count c = rem.count c := by
  induction cls generalizing rem with
  | nil => rfl
  | cons card classes ih =>
    have hne : c ≠ card := fun h => hc (h ▸ List.mem_cons_self card classes)
    have hc' : c ∉ classes := fun h => hc (List.mem_cons_of_mem _ h)
    by_cases h4 : (sameCards orig card).length = 4
    · simp only [findForcedLoop]
      rw [if_pos h4]
      rw [ih _ hc', List.count_erase_of_ne hne, List.count_erase_of_ne hne,
        List.count_erase_of_ne hne]
    · by_cases h3 : (sameCards orig card).length = 3
      · simp only [findForcedLoop]
        rw [if_neg h4, if_pos h3]
        rw [ih _ hc', List.count_erase_of_ne hne, List.count_erase_of_ne hne,
          List.count_erase_of_ne hne]
      · simp only [findForcedLoop]
        rw [if_neg h4, if_neg h3]
        exact ih _ hc'

lemma findForcedLoop_length_mod (orig : List Card) (cls rem : List Card)
    (hnd : cls.Nodup) (hinv : ∀ c ∈ cls, rem.count c = orig.count c) :
    (findForcedLoop orig cls rem).2.length % 3 = rem.length % 3 := by
  induction cls generalizing rem with
  | nil => rfl
  | cons card classes ih =>
    have hndt : classes.Nodup := hnd.of_cons
    have hcm : card ∉ classes := (List.nodup_cons.mp hnd).1
    have hcard : rem.count card = orig.count card :=
      hinv card (List.mem_cons_self card classes)
    have hinvt : ∀ c ∈ classes, ∀ {r : List Card}, r.count c = rem.count c →
        r.count c = orig.count c := fun c hc _ hr =>
      hr.trans (hinv c (List.mem_cons_of_mem _ hc))
    by_cases h4 : (sameCards orig card).length = 4
    · have hcnt : 3 ≤ rem.count card := by
        rw [hcard, ← sameCards_length orig card, h4]; omega
      obtain ⟨hlen, -, hpres⟩ := erase3_spec rem card hcnt
      simp only [findForcedLoop]
      rw [if_pos h4]
      rw [ih _ hndt (fun c hc => hinvt c hc (hpres c
        (fun h => hcm (h ▸ hc))))]
      omega
    · by_cases h3 : (sameCards orig card).length = 3
      · have hcnt : 3 ≤ rem.count card := by
          rw [hcard, ← sameCards_length orig card, h3]
        obtain ⟨hlen, -, hpres⟩ := erase3_spec rem card hcnt
        simp only [findForcedLoop]
        rw [if_neg h4, if_pos h3]
        rw [ih _ hndt (fun c hc => hinvt c hc (hpres c
          (fun h => hcm (h ▸ hc))))]
        omega
      · simp only [findForcedLoop]
        rw [if_neg h4, if_neg h3]
        exact ih _ hndt (fun c hc => hinvt c hc rfl)

lemma firstOccs_aux_nodup {α : Type} [DecidableEq α] (l acc : List α)
    (h : acc.Nodup) :
    (l.foldl (fun acc c => if c ∈ acc then acc else acc ++ [c]) acc).Nodup := by
  induction l generalizing acc with
  | nil => exact h
  | cons b t ih =>
    simp only [List.foldl_cons]
    by_cases hb : b ∈ acc
    · rw [if_pos hb]; exact ih acc h
    · rw [if_neg hb]
      refine ih _ (List.nodup_append.mpr ⟨h, List.nodup_singleton b, ?_⟩)
      intro x hx hxb
      rcases List.mem_singleton.mp hxb with rfl
      exact hb hx

lemma firstOccs_aux_mem {α : Type} [DecidableEq α] (l acc : List α) (x : α) :
    x ∈ l.foldl (fun acc c => if c ∈ acc then acc else acc ++ [c]) acc ↔
      x ∈ acc ∨ x ∈ l := by
  induction l generalizing acc with
  | nil => simp
  | cons b t ih =>
    simp only [List.foldl_cons, List.mem_cons]
    by_cases hb : b ∈ acc
    · rw [if_pos hb, ih]
      constructor
      · rintro (h | h)
        · exact Or.inl h
        · exact Or.inr (Or.inr h)
      · rintro (h | rfl | h)
        · exact Or.inl h
        · exact Or.inl hb
        · exact Or.inr h
    · rw [if_neg hb, ih]
      simp only [List.mem_append, List.mem_singleton]
      tauto

lemma firstOccs_nodup {α : Type} [DecidableEq α] (l : List α) :
    (firstOccs l).Nodup :=
  firstOccs_aux_nodup l [] List.nodup_nil

lemma mem_firstOccs {α : Type} [DecidableEq α] (l : List α) (x : α) :
    x ∈ firstOccs l ↔ x ∈ l := by
  unfold firstOccs
  rw [firstOccs_aux_mem]
  simp

/-- The pool left over by the forced-group extraction always has the same
card count modulo 3 as the input: every class contributes either nothing or
exactly one 3-card triplet. -/
lemma find_forced_groups_length_mod (cards : List Card) :
    (find_forced_groups cards).2.length % 3 = cards.length % 3 :=
  findForcedLoop_length_mod cards (firstOccs cards) cards
    (firstOccs_nodup cards) (fun _ _ => rfl)

/-- `WinChecker._find_win_combination` can never succeed: it demands 21
cards, the forced extraction leaves a pool of size ≡ 21 ≡ 0 (mod 3), and
the search then insists on a pool of size ≡ 2 (mod 3). -/
lemma find_win_combination_eq_none (cards : List Card) :
    find_win_combination cards = none := by
  unfold find_win_combination
  by_cases h : cards.length = 21
  · have hmod : (find_forced_groups cards).2.length % 3 = 0 := by
      rw [find_forced_groups_length_mod, h]
    rw [if_neg (by simp [h]), if_neg (by omega)]
  · rw [if_pos (by simpa using h)]

/-- `WinChecker.can_win` therefore returns `(False, 0, None)` on every
hand whatsoever. -/
lemma can_win_eq (h : Hand) : can_win h = some (false, 0, none) := by
  unfold can_win can_win_full
  simp only [find_win_combination_eq_none]

/-! ## Claim theorems -/

/-- C1: `WinChecker.can_win` rejects immediately — returning
`(False, 0, None)`, a non-win rather than an error — whenever the combined
tile count (concealed tiles + pending drawn tile + tiles inside committed
groups, i.e. `Hand.get_total_count`) differs from exactly 21.  (In fact the
internal length check counts only concealed + pending tiles, and the
decomposition search can never succeed at all — see the companion result on
C3 — so the rejection holds a fortiori.) -/
theorem can_win_rejects_wrong_total (h : Hand)
    (hne : h.get_total_count ≠ 21) :
    can_win h = some (false, 0, none) :=
  can_win_eq h

/-- Witness for C1 at a concrete hand of total count 0. -/
theorem can_win_rejects_wrong_total_witness :
    Hand.get_total_count ⟨[], none, []⟩ ≠ 21 ∧
      can_win ⟨[], none, []⟩ = some (false, 0, none) :=
  ⟨by decide, can_win_rejects_wrong_total ⟨[], none, []⟩ (by decide)⟩

/-- A 21-tile hand that is structurally complete by the code's own
documentation (`3x + 3y + 2z = 21` with seven concealed triplets) and worth
21 huxi ≥ 15, yet rejected: three copies each of the minor tiles 1..7. -/
def sevenTripletHand : Hand :=
  ⟨(List.range 7).flatMap (fun i => List.replicate 3 ⟨i + 1, false⟩),
    none, []⟩

/-- C3: refuted by the code — `WinChecker.can_win` never reports a win for
any hand.  `_find_win_combination` insists that the pool left after forced
extraction have size ≡ 2 (mod 3), but 21 tiles minus 3-tile forced groups
always leave size ≡ 0 (mod 3), so no decomposition is ever found and the
result is `(False, 0, None)` universally; in particular the 21-tile
seven-triplet hand (21 huxi by the code's own scoring table) is reported as
a non-win. -/
theorem can_win_never_wins :
    sevenTripletHand.get_total_count = 21 ∧
    can_win sevenTripletHand = some (false, 0, none) ∧
    ∀ h : Hand, can_win h = some (false, 0, none) :=
  ⟨by decide, can_win_eq sevenTripletHand, can_win_eq⟩

/-- C5: the huxi scoring table (concealed triplet minor 3 / major 6,
exposed triplet minor 1 / major 3, concealed quadruplet minor 9 / major 12,
exposed quadruplet minor 6 / major 9) and the huxi-to-points conversion
(0 below 15, else 1 + ⌊(huxi − 15) / 3⌋, so 15 ↦ 1, 18 ↦ 2, 27 ↦ 5). -/
theorem huxi_table_and_score_conversion :
    (∀ c : Card,
      calculate_triplet_huxi [c, c, c] false =
        some (if c.is_uppercase then 6 else 3) ∧
      calculate_triplet_huxi [c, c, c] true =
        some (if c.is_uppercase then 3 else 1) ∧
      calculate_quadruplet_huxi [c, c, c, c] false =
        some (if c.is_uppercase then 12 else 9) ∧
      calculate_quadruplet_huxi [c, c, c, c] true =
        some (if c.is_uppercase then 9 else 6)) ∧
    (∀ huxi : Nat,
      calculate_score huxi = if huxi < 15 then 0 else 1 + (huxi - 15) / 3) ∧
    calculate_score 15 = 1 ∧ calculate_score 18 = 2 ∧ calculate_score 27 = 5 := by
  refine ⟨fun c => ?_, fun huxi => rfl, rfl, rfl, rfl⟩
  refine ⟨?_, ?_, ?_, ?_⟩ <;>
    simp [calculate_triplet_huxi, calculate_quadruplet_huxi]

/-- C8: the win query neither mutates the hand (every field of the hand it
hands back is the field it was given) nor varies between calls: querying
the hand left behind by a first call yields the identical
(bool, huxi, combination) triple. -/
theorem can_win_idempotent_nonmutating (h : Hand) :
    (can_win_full h).2 = h ∧
    (can_win_full ((can_win_full h).2)).1 = (can_win_full h).1 :=
  ⟨rfl, rfl⟩

/-- C9: drawing a tile onto a hand with no pending tile and immediately
discarding the drawn tile succeeds, returns that very tile, restores the
concealed multiset exactly (indeed the very same list) and leaves no
pending tile. -/
theorem draw_then_discard_restores (h : Hand) (t : Card)
    (hnone : h.drawn_card = none) :
    ∃ h1 : Hand, h.draw_card t = some h1 ∧
      ∃ h2 : Hand, h1.discard_drawn_card = some (t, h2) ∧
        (h2.cards : Multiset Card) = (h.cards : Multiset Card) ∧
        h2.cards = h.cards ∧ h2.drawn_card = none := by
  refine ⟨{ h with drawn_card := some t }, ?_,
    { h with drawn_card := none }, rfl, rfl, rfl, rfl⟩
  unfold Hand.draw_card
  rw [hnone]

/-- Witness for C9 at a concrete one-card hand. -/
theorem draw_then_discard_restores_witness :
    (⟨[⟨4, false⟩], none, []⟩ : Hand).drawn_card = none ∧
    ∃ h1 : Hand,
      Hand.draw_card ⟨[⟨4, false⟩], none, []⟩ ⟨7, true⟩ = some h1 ∧
      ∃ h2 : Hand, h1.discard_drawn_card = some (⟨7, true⟩, h2) ∧
        (h2.cards : Multiset Card) =
          ((⟨[⟨4, false⟩], none, []⟩ : Hand).cards : Multiset Card) ∧
        h2.cards = (⟨[⟨4, false⟩], none, []⟩ : Hand).cards ∧
        h2.drawn_card = none :=
  ⟨rfl, draw_then_discard_restores ⟨[⟨4, false⟩], none, []⟩ ⟨7, true⟩ rfl⟩

lemma findForcedLoop_class (orig : List Card) (cls rem : List Card)
    (hnd : cls.Nodup) (hinv : ∀ c ∈ cls, rem.count c = orig.count c)
    (c : Card) (hc : c ∈ cls) :
    (orig.count c = 4 →
      List.replicate 3 c ∈ (findForcedLoop orig cls rem).1 ∧
      (findForcedLoop orig cls rem).2.count c = 1) ∧
    (orig.count c = 3 →
      List.replicate 3 c ∈ (findForcedLoop orig cls rem).1 ∧
      (findForcedLoop orig cls rem).2.count c = 0) := by
  induction cls generalizing rem with
  | nil => cases hc
  | cons card classes ih =>
    have hndt : classes.Nodup := hnd.of_cons
    have hcm : card ∉ classes := (List.nodup_cons.mp hnd).1
    have hcard : rem.count card = orig.count card :=
      hinv card (List.mem_cons_self card classes)
    rcases List.mem_cons.mp hc with rfl | hmem
    · -- the class under scrutiny is the one being processed
      constructor
      · intro h4
        have hlen4 : (sameCards orig c).length = 4 := by
          rw [sameCards_length]; exact h4
        have hcnt : 3 ≤ rem.count c := by rw [hcard, h4]; omega
        obtain ⟨-, hcc, -⟩ := erase3_spec rem c hcnt
        simp only [findForcedLoop]
        rw [if_pos hlen4]
        constructor
        · have : sameCards rem c = List.replicate 4 c := by
            rw [sameCards_eq_replicate, hcard, h4]
          rw [this]
          simp [List.take_replicate]
        · rw [findForcedLoop_count_of_not_mem orig classes _ c hcm]
          rw [hcard, h4] at hcc
          omega
      · intro h3
        have hlen4 : ¬(sameCards orig c).length = 4 := by
          rw [sameCards_length, h3]; omega
        have hlen3 : (sameCards orig c).length = 3 := by
          rw [sameCards_length]; exact h3
        have hcnt : 3 ≤ rem.count c := by rw [hcard, h3]
        obtain ⟨-, hcc, -⟩ := erase3_spec rem c hcnt
        simp only [findForcedLoop]
        rw [if_neg hlen4, if_pos hlen3]
        constructor
        · have : sameCards rem c = List.replicate 3 c := by
            rw [sameCards_eq_replicate, hcard, h3]
          rw [this]
          exact List.mem_cons_self _ _
        · rw [findForcedLoop_count_of_not_mem orig classes _ c hcm]
          rw [hcard, h3] at hcc
          omega
    · -- the class under scrutiny comes later in the walk
      have hne : card ≠ c := fun h => hcm (h ▸ hmem)
      by_cases h4 : (sameCards orig card).length = 4
      · have hcnt : 3 ≤ rem.count card := by
          rw [hcard, ← sameCards_length orig card, h4]; omega
        obtain ⟨-, -, hpres⟩ := erase3_spec rem card hcnt
        have hinvt : ∀ c' ∈ classes,
            (((rem.erase card).erase card).erase card).count c' =
              orig.count c' := fun c' hc' =>
          (hpres c' (fun h => hcm (h ▸ hc'))).trans
            (hinv c' (List.mem_cons_of_mem _ hc'))
        have := ih _ hndt hinvt hmem
        simp only [findForcedLoop]
        rw [if_pos h4]
        exact ⟨fun h => ⟨List.mem_cons_of_mem _ (this.1 h).1, (this.1 h).2⟩,
          fun h => ⟨List.mem_cons_of_mem _ (this.2 h).1, (this.2 h).2⟩⟩
      · by_cases h3 : (sameCards orig card).length = 3
        · have hcnt : 3 ≤ rem.count card := by
            rw [hcard, ← sameCards_length orig card, h3]
          obtain ⟨-, -, hpres⟩ := erase3_spec rem card hcnt
          have hinvt : ∀ c' ∈ classes,
              (((rem.erase card).erase card).erase card).count c' =
                orig.count c' := fun c' hc' =>
            (hpres c' (fun h => hcm (h ▸ hc'))).trans
              (hinv c' (List.mem_cons_of_mem _ hc'))
          have := ih _ hndt hinvt hmem
          simp only [findForcedLoop]
          rw [if_neg h4, if_pos h3]
          exact ⟨fun h => ⟨List.mem_cons_of_mem _ (this.1 h).1, (this.1 h).2⟩,
            fun h => ⟨List.mem_cons_of_mem _ (this.2 h).1, (this.2 h).2⟩⟩
        · have hinvt : ∀ c' ∈ classes, rem.count c' = orig.count c' :=
            fun c' hc' => hinv c' (List.mem_cons_of_mem _ hc')
          have := ih _ hndt hinvt hmem
          simp only [findForcedLoop]
          rw [if_neg h4, if_neg h3]
          exact this

lemma findForcedLoop_triplet_length (orig : List Card) (cls rem : List Card)
    (hnd : cls.Nodup) (hinv : ∀ c ∈ cls, rem.count c = orig.count c) :
    ∀ t ∈ (findForcedLoop orig cls rem).1, t.length = 3 := by
  induction cls generalizing rem with
  | nil => intro t ht; cases ht
  | cons card classes ih =>
    have hndt : classes.Nodup := hnd.of_cons
    have hcm : card ∉ classes := (List.nodup_cons.mp hnd).1
    have hcard : rem.count card = orig.count card :=
      hinv card (List.mem_cons_self card classes)
    by_cases h4 : (sameCards orig card).length = 4
    · have hcnt4 : rem.count card = 4 := by
        rw [hcard, ← sameCards_length orig card, h4]
      obtain ⟨-, -, hpres⟩ := erase3_spec rem card (by omega)
      have hinvt : ∀ c' ∈ classes,
          (((rem.erase card).erase card).erase card).count c' =
            orig.count c' := fun c' hc' =>
        (hpres c' (fun h => hcm (h ▸ hc'))).trans
          (hinv c' (List.mem_cons_of_mem _ hc'))
      simp only [findForcedLoop]
      rw [if_pos h4]
      intro t ht
      rcases List.mem_cons.mp ht with rfl | ht'
      · rw [sameCards_eq_replicate, hcnt4]
        simp [List.take_replicate]
      · exact ih _ hndt hinvt t ht'
    · by_cases h3 : (sameCards orig card).length = 3
      · have hcnt3 : rem.count card = 3 := by
          rw [hcard, ← sameCards_length orig card, h3]
        obtain ⟨-, -, hpres⟩ := erase3_spec rem card (by omega)
        have hinvt : ∀ c' ∈ classes,
            (((rem.erase card).erase card).erase card).count c' =
              orig.count c' := fun c' hc' =>
          (hpres c' (fun h => hcm (h ▸ hc'))).trans
            (hinv c' (List.mem_cons_of_mem _ hc'))
        simp only [findForcedLoop]
        rw [if_neg h4, if_pos h3]
        intro t ht
        rcases List.mem_cons.mp ht with rfl | ht'
        · rw [sameCards_eq_replicate, hcnt3]
          simp
        · exact ih _ hndt hinvt t ht'
      · simp only [findForcedLoop]
        rw [if_neg h4, if_neg h3]
        exact ih _ hndt (fun c' hc' => hinv c' (List.mem_cons_of_mem _ hc'))

/-- C4: the forced-group extraction of the win search commits exactly 3
tiles of a 4-member value+rank class as one forced triplet, leaving exactly
1 tile of that class free in the pool; a 3-member class is committed whole;
and every extracted forced group has exactly 3 tiles (never 4, and a
4-member class never leaves a 2-tile remnant). -/
theorem find_forced_groups_policy (cards : List Card) (c : Card) :
    (cards.count c = 4 →
      List.replicate 3 c ∈ (find_forced_groups cards).1 ∧
      (find_forced_groups cards).2.count c = 1) ∧
    (cards.count c = 3 →
      List.replicate 3 c ∈ (find_forced_groups cards).1 ∧
      (find_forced_groups cards).2.count c = 0) ∧
    (∀ t ∈ (find_forced_groups cards).1, t.length = 3) := by
  refine ⟨fun h4 => ?_, fun h3 => ?_,
    findForcedLoop_triplet_length cards (firstOccs cards) cards
      (firstOccs_nodup cards) (fun _ _ => rfl)⟩
  · have hc : c ∈ firstOccs cards :=
      (mem_firstOccs cards c).mpr (List.count_pos_iff.mp (by omega))
    exact (findForcedLoop_class cards (firstOccs cards) cards
      (firstOccs_nodup cards) (fun _ _ => rfl) c hc).1 h4
  · have hc : c ∈ firstOccs cards :=
      (mem_firstOccs cards c).mpr (List.count_pos_iff.mp (by omega))
    exact (findForcedLoop_class cards (firstOccs cards) cards
      (firstOccs_nodup cards) (fun _ _ => rfl) c hc).2 h3

/-- Witness for C4: a concrete pool with one 4-member class (minor 5) and
one 3-member class (major 2). -/
theorem find_forced_groups_policy_witness :
    (List.count (⟨5, false⟩ : Card)
        [⟨5, false⟩, ⟨5, false⟩, ⟨5, false⟩, ⟨5, false⟩, ⟨2, true⟩,
          ⟨2, true⟩, ⟨2, true⟩] = 4 ∧
      List.replicate 3 (⟨5, false⟩ : Card) ∈
        (find_forced_groups [⟨5, false⟩, ⟨5, false⟩, ⟨5, false⟩, ⟨5, false⟩,
          ⟨2, true⟩, ⟨2, true⟩, ⟨2, true⟩]).1 ∧
      (find_forced_groups [⟨5, false⟩, ⟨5, false⟩, ⟨5, false⟩, ⟨5, false⟩,
          ⟨2, true⟩, ⟨2, true⟩, ⟨2, true⟩]).2.count ⟨5, false⟩ = 1) ∧
    (List.count (⟨2, true⟩ : Card)
        [⟨5, false⟩, ⟨5, false⟩, ⟨5, false⟩, ⟨5, false⟩, ⟨2, true⟩,
          ⟨2, true⟩, ⟨2, true⟩] = 3 ∧
      List.replicate 3 (⟨2, true⟩ : Card) ∈
        (find_forced_groups [⟨5, false⟩, ⟨5, false⟩, ⟨5, false⟩, ⟨5, false⟩,
          ⟨2, true⟩, ⟨2, true⟩, ⟨2, true⟩]).1 ∧
      (find_forced_groups [⟨5, false⟩, ⟨5, false⟩, ⟨5, false⟩, ⟨5, false⟩,
          ⟨2, true⟩, ⟨2, true⟩, ⟨2, true⟩]).2.count ⟨2, true⟩ = 0) :=
  ⟨⟨by decide, (find_forced_groups_policy _ ⟨5, false⟩).1 (by decide)⟩,
    ⟨by decide, (find_forced_groups_policy _ ⟨2, true⟩).2.1 (by decide)⟩⟩

lemma removeEach_multiplicity (req : List Card) : ∀ cs : List Card,
    (∀ c : Card, req.count c ≤ cs.count c) →
    (removeEach cs req).1 = true ∧
    ((removeEach cs req).2 : Multiset Card) =
      (cs : Multiset Card) - (req : Multiset Card) := by
  induction req with
  | nil => intro cs _; exact ⟨rfl, by simp [removeEach]⟩
  | cons c rest ih =>
    intro cs hm
    have hc : c ∈ cs := by
      have := hm c
      rw [List.count_cons_self] at this
      exact List.count_pos_iff.mp (by omega)
    have hm' : ∀ c' : Card, rest.count c' ≤ (cs.erase c).count c' := by
      intro c'
      by_cases hcc : c' = c
      · subst hcc
        have := hm c'
        rw [List.count_cons_self] at this
        rw [List.count_erase_self]
        omega
      · have := hm c'
        rw [List.count_cons_of_ne hcc] at this
        rw [List.count_erase_of_ne hcc]
        omega
    have step : removeEach cs (c :: rest) = removeEach (cs.erase c) rest := by
      simp only [removeEach, if_pos hc]
    obtain ⟨h1, h2⟩ := ih (cs.erase c) hm'
    refine ⟨by rw [step]; exact h1, ?_⟩
    rw [step, h2, ← Multiset.coe_erase]
    rw [show ((c :: rest : List Card) : Multiset Card) = c ::ₘ (rest : Multiset Card) from rfl]
    rw [Multiset.sub_cons]

/-- C10 (amended): `Hand.remove_cards` returns `false` and leaves the hand
untouched when some requested tile is not among the concealed tiles at all;
when every requested tile is present with sufficient multiplicity it
returns `true` having removed exactly the requested multiset (and touching
nothing else).  (When every requested tile is individually present but some
tile is requested more often than held, the call instead raises mid-way —
see the counterexample — so full atomicity fails.) -/
theorem remove_cards_cases (h : Hand) (req : List Card) :
    ((∃ c ∈ req, c ∉ h.cards) → h.remove_cards req = (some false, h)) ∧
    ((∀ c ∈ req, req.count c ≤ h.cards.count c) →
      (h.remove_cards req).1 = some true ∧
      ((h.remove_cards req).2.cards : Multiset Card) =
        (h.cards : Multiset Card) - (req : Multiset Card) ∧
      (h.remove_cards req).2.drawn_card = h.drawn_card ∧
      (h.remove_cards req).2.exposed_groups = h.exposed_groups) := by
  constructor
  · rintro ⟨c, hcr, hcn⟩
    have : req.all (fun card => decide (card ∈ h.cards)) = false := by
      rw [List.all_eq_false]
      exact ⟨c, hcr, by simpa using hcn⟩
    unfold Hand.remove_cards
    rw [if_neg (by simp only [this]; simp)]
  · intro hm
    have hmall : ∀ c : Card, req.count c ≤ h.cards.count c := by
      intro c
      by_cases hcr : c ∈ req
      · exact hm c hcr
      · rw [List.count_eq_zero.mpr hcr]
        omega
    obtain ⟨h1, h2⟩ := removeEach_multiplicity req h.cards hmall
    have hall : req.all (fun card => decide (card ∈ h.cards)) = true := by
      rw [List.all_eq_true]
      intro c hcr
      simp only [decide_eq_true_eq]
      have h0 : 0 < req.count c := List.count_pos_iff.mpr hcr
      exact List.count_pos_iff.mp (lt_of_lt_of_le h0 (hmall c))
    have hpair : removeEach h.cards req = (true, (removeEach h.cards req).2) := by
      rw [← h1]
    unfold Hand.remove_cards
    rw [if_pos (by simpa using hall), hpair]
    exact ⟨rfl, h2, rfl, rfl⟩

/-- Counterexample for C10 as stated: a hand holding one copy of minor 1,
asked to remove that tile twice.  The membership precheck passes (the tile
is present), the first removal succeeds, the second raises `ValueError`
(result `none`): the call neither returns `false` with the hand unchanged
nor removes everything requested — it removes a proper subset (the hand
ends empty, one tile removed of the two requested). -/
theorem remove_cards_counterexample :
    Hand.remove_cards ⟨[⟨1, false⟩], none, []⟩ [⟨1, false⟩, ⟨1, false⟩] =
      (none, ⟨[], none, []⟩) ∧
    (⟨[⟨1, false⟩], none, []⟩ : Hand).cards ≠ ([] : List Card) :=
  ⟨by decide, by decide⟩

/-- Witness for C10's amended theorem: the absence case on a hand without
the requested tile, and the success case removing two copies at once. -/
theorem remove_cards_cases_witness :
    Hand.remove_cards ⟨[⟨1, false⟩], none, []⟩ [⟨2, true⟩] =
      (some false, ⟨[⟨1, false⟩], none, []⟩) ∧
    (Hand.remove_cards ⟨[⟨3, false⟩, ⟨9, true⟩, ⟨3, false⟩], none, []⟩
        [⟨3, false⟩, ⟨3, false⟩]).1 = some true ∧
    ((Hand.remove_cards ⟨[⟨3, false⟩, ⟨9, true⟩, ⟨3, false⟩], none, []⟩
        [⟨3, false⟩, ⟨3, false⟩]).2.cards : Multiset Card) =
      (([⟨3, false⟩, ⟨9, true⟩, ⟨3, false⟩] : List Card) : Multiset Card) -
        (([⟨3, false⟩, ⟨3, false⟩] : List Card) : Multiset Card) ∧
    (Hand.remove_cards ⟨[⟨3, false⟩, ⟨9, true⟩, ⟨3, false⟩], none, []⟩
        [⟨3, false⟩, ⟨3, false⟩]).2.drawn_card = none ∧
    (Hand.remove_cards ⟨[⟨3, false⟩, ⟨9, true⟩, ⟨3, false⟩], none, []⟩
        [⟨3, false⟩, ⟨3, false⟩]).2.exposed_groups = [] :=
  ⟨(remove_cards_cases ⟨[⟨1, false⟩], none, []⟩ [⟨2, true⟩]).1
      ⟨⟨2, true⟩, by decide, by decide⟩,
    (remove_cards_cases ⟨[⟨3, false⟩, ⟨9, true⟩, ⟨3, false⟩], none, []⟩
      [⟨3, false⟩, ⟨3, false⟩]).2 (by decide)⟩

lemma any_of_findIdx?_eq_some {α : Type} {p : α → Bool} {l : List α} {k : Nat}
    (h : List.findIdx? p l = some k) : l.any p = true := by
  obtain ⟨hk, hp, -⟩ := List.findIdx?_eq_some_iff_getElem.mp h
  exact List.any_eq_true.mpr ⟨l[k], List.getElem_mem hk, hp⟩

lemma groupsHuxiSum_append (gs : List ExposedGroup) (g : ExposedGroup) :
    groupsHuxiSum (gs ++ [g]) = optAdd (groupsHuxiSum gs) (groupHuxi g) := by
  induction gs with
  | nil =>
    simp only [List.nil_append, groupsHuxiSum, optAdd]
    cases groupHuxi g <;> simp
  | cons g0 rest ih =>
    have lhs : groupsHuxiSum ((g0 :: rest) ++ [g]) =
        match groupHuxi g0, groupsHuxiSum (rest ++ [g]) with
        | some a, some b => some (a + b)
        | _, _ => none := rfl
    have rhs : groupsHuxiSum (g0 :: rest) =
        match groupHuxi g0, groupsHuxiSum rest with
        | some a, some b => some (a + b)
        | _, _ => none := rfl
    rw [lhs, ih, rhs]
    cases groupHuxi g0 <;> cases groupsHuxiSum rest <;> cases groupHuxi g <;>
      simp [optAdd, Nat.add_assoc]

/-- C6: upgrading a committed concealed triplet (wei) to a concealed
quadruplet (ti) via `do_ti` removes the 3-tile wei group at its position
and appends one 4-tile ti group made of the wei's 3 tiles plus the pending
drawn tile, clearing the pending tile; in win scoring that ti group
contributes exactly the concealed-quadruplet value (12 huxi for a major
tile, 9 for a minor one) on top of the remaining groups — the 3 original
tiles are not additionally scored as a separate triplet, the removed wei's
contribution being gone with the group. -/
theorem do_ti_upgrade (h : Hand) (d : Card) (k : Nat) (g : ExposedGroup)
    (hd : h.drawn_card = some d)
    (hk : h.exposed_groups.findIdx? (weiGroupFor d) = some k)
    (hg : h.exposed_groups[k]? = some g)
    (hgc : g.cards = [d, d, d]) :
    do_ti h = some ⟨h.cards, none,
      (h.exposed_groups.eraseIdx k) ++ [⟨"ti", [d, d, d, d], false⟩]⟩ ∧
    groupHuxi ⟨"ti", [d, d, d, d], false⟩ =
      some (if d.is_uppercase then 12 else 9) ∧
    groupsHuxiSum
        ((h.exposed_groups.eraseIdx k) ++ [⟨"ti", [d, d, d, d], false⟩]) =
      optAdd (groupsHuxiSum (h.exposed_groups.eraseIdx k))
        (some (if d.is_uppercase then 12 else 9)) := by
  have hhuxi : groupHuxi ⟨"ti", [d, d, d, d], false⟩ =
      some (if d.is_uppercase then 12 else 9) := by
    cases hdu : d.is_uppercase <;>
      simp [groupHuxi, calculate_quadruplet_huxi, hdu]
  have hcanti : h.can_ti = true := by
    unfold Hand.can_ti
    rw [hd]
    rw [Bool.or_eq_true]
    exact Or.inr (any_of_findIdx?_eq_some hk)
  refine ⟨?_, hhuxi, by rw [groupsHuxiSum_append, hhuxi]⟩
  unfold do_ti
  rw [hcanti]
  simp only [Bool.not_true, Bool.false_eq_true, if_false]
  simp only [hd, hk, hg, hgc]
  rfl

/-- Witness for C6 at a hand holding a wei of major 2 and having drawn the
fourth major 2. -/
theorem do_ti_upgrade_witness :
    do_ti ⟨[⟨6, false⟩], some ⟨2, true⟩,
        [⟨"wei", [⟨2, true⟩, ⟨2, true⟩, ⟨2, true⟩], true⟩]⟩ =
      some ⟨[⟨6, false⟩], none,
        [⟨"ti", [⟨2, true⟩, ⟨2, true⟩, ⟨2, true⟩, ⟨2, true⟩], false⟩]⟩ ∧
    groupHuxi ⟨"ti", [⟨2, true⟩, ⟨2, true⟩, ⟨2, true⟩, ⟨2, true⟩], false⟩ =
      some 12 ∧
    groupsHuxiSum
        [⟨"ti", [⟨2, true⟩, ⟨2, true⟩, ⟨2, true⟩, ⟨2, true⟩], false⟩] =
      optAdd (groupsHuxiSum []) (some 12) := by
  have := do_ti_upgrade
    ⟨[⟨6, false⟩], some ⟨2, true⟩,
      [⟨"wei", [⟨2, true⟩, ⟨2, true⟩, ⟨2, true⟩], true⟩]⟩
    ⟨2, true⟩ 0 ⟨"wei", [⟨2, true⟩, ⟨2, true⟩, ⟨2, true⟩], true⟩
    rfl (by decide) rfl rfl
  simpa using this

lemma count_exact_eq_count (h : Hand) (d : Card) :
    h.count_exact_card d false = h.cards.count d := by
  unfold Hand.count_exact_card
  rw [List.count_eq_countP, List.countP_eq_length_filter]
  simp

lemma weiGroupFor_iff (d : Card) (g : ExposedGroup) :
    weiGroupFor d g = true ↔ g.type = "wei" ∧ g.cards.head? = some d := by
  unfold weiGroupFor
  constructor
  · intro hx
    simp only [Bool.and_eq_true, beq_iff_eq] at hx
    exact ⟨hx.1.1, hx.2⟩
  · rintro ⟨h1, h2⟩
    have hne : g.cards.isEmpty = false := by
      cases hc : g.cards with
      | nil => rw [hc] at h2; cases h2
      | cons a t => simp
    simp only [Bool.and_eq_true, beq_iff_eq, hne]
    exact ⟨⟨h1, rfl⟩, h2⟩

/-- C2: on any hand whose committed wei groups are well-formed (3 identical
tiles each, as `do_wei` builds them) and which is consistent with the deck
(at most 3 copies of the discarded tile held across concealed tiles and
committed groups, the discarded copy being the 4th), `can_pao d` holds iff
exactly 3 concealed tiles equal `d` exactly, or some committed wei group of
`d` exists — each disjunct alone suffices. -/
theorem can_pao_iff (h : Hand) (d : Card)
    (hwf : ∀ g ∈ h.exposed_groups, g.type = "wei" → ∃ c, g.cards = [c, c, c])
    (hbound : h.cards.count d +
      ((h.exposed_groups.map (fun g => g.cards.count d)).sum) ≤ 3) :
    can_pao h d = true ↔
      (h.count_exact_card d false = 3 ∨
        ∃ g ∈ h.exposed_groups, g.type = "wei" ∧ g.cards.head? = some d) := by
  rw [count_exact_eq_count]
  unfold can_pao
  rw [count_exact_eq_count]
  cases hfind : h.exposed_groups.find? (weiGroupFor d) with
  | none =>
    have hno : ∀ g ∈ h.exposed_groups,
        ¬(g.type = "wei" ∧ g.cards.head? = some d) := by
      intro g hg hcontra
      have := List.find?_eq_none.mp hfind g hg
      exact this ((weiGroupFor_iff d g).mpr hcontra)
    constructor
    · intro hx
      exact Or.inl (by simpa using hx)
    · rintro (hx | ⟨g, hg, hx⟩)
      · simpa using hx
      · exact absurd hx (hno g hg)
  | some g' =>
    have hpred : weiGroupFor d g' = true := List.find?_some hfind
    have hmem : g' ∈ h.exposed_groups := List.mem_of_find?_eq_some hfind
    obtain ⟨htype, hhead⟩ := (weiGroupFor_iff d g').mp hpred
    obtain ⟨c, hc⟩ := hwf g' hmem htype
    have hcd : c = d := by
      rw [hc] at hhead
      simpa using hhead
    subst hcd
    have hlen : g'.cards.length = 3 := by rw [hc]; rfl
    have hcount3 : g'.cards.count c = 3 := by rw [hc]; simp
    have hsum : 3 ≤ (h.exposed_groups.map (fun g => g.cards.count c)).sum := by
      have := List.single_le_sum (l := h.exposed_groups.map
        (fun g => g.cards.count c)) (fun x _ => Nat.zero_le x)
        (g'.cards.count c) (List.mem_map_of_mem _ hmem)
      omega
    have hzero : h.cards.count c = 0 := by omega
    constructor
    · intro _
      exact Or.inr ⟨g', hmem, htype, hhead⟩
    · intro _
      show (h.cards.count c + g'.cards.length == 3) = true
      rw [hzero, hlen]
      rfl

/-- Witness for C2: a hand holding exactly 3 copies of minor 4 and no
committed groups. -/
theorem can_pao_iff_witness :
    can_pao ⟨[⟨4, false⟩, ⟨4, false⟩, ⟨4, false⟩], none, []⟩ ⟨4, false⟩ =
        true ↔
      (Hand.count_exact_card ⟨[⟨4, false⟩, ⟨4, false⟩, ⟨4, false⟩], none, []⟩
          ⟨4, false⟩ false = 3 ∨
        ∃ g ∈ ([] : List ExposedGroup),
          g.type = "wei" ∧ g.cards.head? = some ⟨4, false⟩) :=
  can_pao_iff ⟨[⟨4, false⟩, ⟨4, false⟩, ⟨4, false⟩], none, []⟩ ⟨4, false⟩
    (fun g hg => absurd hg (List.not_mem_nil g)) (by decide)

/-- The specification's definition of a valid sequence, written from the
spec's words for comparison with the source's `is_valid_sequence`: all
tiles share one rank, and the multiset of values sorts to either three
consecutive integers within [1,10], or exactly {1,2,3}, or exactly
{2,7,10}. -/
def specValidSequence (tiles : List Card) : Prop :=
  (∀ t ∈ tiles, ∀ u ∈ tiles, t.is_uppercase = u.is_uppercase) ∧
  ∃ a b c : Nat, (tiles.map (fun t => t.value)).Perm [a, b, c] ∧
    a ≤ b ∧ b ≤ c ∧
    ((b = a + 1 ∧ c = b + 1 ∧ 1 ≤ a ∧ c ≤ 10) ∨
      (a = 1 ∧ b = 2 ∧ c = 3) ∨ (a = 2 ∧ b = 7 ∧ c = 10))

/-- On valid tiles the source's sequence test coincides with the spec's
definition. -/
lemma is_valid_sequence_iff_spec (tiles : List Card)
    (hval : ∀ t ∈ tiles, t.valid) :
    is_valid_sequence tiles = true ↔ specValidSequence tiles := by
  by_cases hlen : tiles.length = 3
  · obtain ⟨t1, t2, t3, rfl⟩ := List.length_eq_three.mp hlen
    have hv : ∀ x ∈ [t1.value, t2.value, t3.value], 1 ≤ x ∧ x ≤ 10 := by
      intro x hx
      simp only [List.mem_cons, List.not_mem_nil, or_false] at hx
      rcases hx with rfl | rfl | rfl
      · exact hval t1 (by simp)
      · exact hval t2 (by simp)
      · exact hval t3 (by simp)
    have hred : is_valid_sequence [t1, t2, t3] =
        (if !([t1, t2, t3].all (fun c => c.is_uppercase == t1.is_uppercase))
         then false
         else
           if SPECIAL_SEQUENCES.contains (List.insertionSort (· ≤ ·)
               [t1.value, t2.value, t3.value]) then true
           else
            match List.insertionSort (· ≤ ·)
                [t1.value, t2.value, t3.value] with
            | [v0, v1, v2] => v1 == v0 + 1 && v2 == v1 + 1
            | _ => false) := rfl
    rw [hred]
    by_cases hrank : ([t1, t2, t3].all
        (fun c => c.is_uppercase == t1.is_uppercase)) = true
    · rw [hrank]
      have hranks : ∀ t ∈ [t1, t2, t3], ∀ u ∈ [t1, t2, t3],
          t.is_uppercase = u.is_uppercase := by
        rw [List.all_eq_true] at hrank
        intro t ht u hu
        have h1 := hrank t ht
        have h2 := hrank u hu
        rw [beq_iff_eq] at h1 h2
        rw [h1, h2]
      simp only [Bool.not_true, Bool.false_eq_true, if_false]
      have hsperm : (List.insertionSort (· ≤ ·)
          [t1.value, t2.value, t3.value]).Perm
            [t1.value, t2.value, t3.value] := List.perm_insertionSort _ _
      have hssort : (List.insertionSort (· ≤ ·)
          [t1.value, t2.value, t3.value]).Sorted (· ≤ ·) :=
        List.sorted_insertionSort _ _
      have hslen : (List.insertionSort (· ≤ ·)
          [t1.value, t2.value, t3.value]).length = 3 := by
        rw [hsperm.length_eq]
        rfl
      obtain ⟨a0, b0, c0, hs3⟩ := List.length_eq_three.mp hslen
      rw [hs3] at hsperm hssort ⊢
      have hsorted0 : a0 ≤ b0 ∧ a0 ≤ c0 ∧ b0 ≤ c0 := by
        simp only [List.sorted_cons, List.mem_cons, List.not_mem_nil,
          or_false, List.mem_singleton] at hssort
        exact ⟨hssort.1 b0 (Or.inl rfl), hssort.1 c0 (Or.inr rfl),
          hssort.2.1 c0 rfl⟩
      constructor
      · intro hx
        refine ⟨hranks, ?_⟩
        by_cases hcont : SPECIAL_SEQUENCES.contains [a0, b0, c0] = true
        · have hmem : [a0, b0, c0] ∈ SPECIAL_SEQUENCES := by
            simpa using hcont
          simp only [SPECIAL_SEQUENCES, List.mem_cons, List.not_mem_nil,
            or_false, List.mem_singleton, List.cons.injEq, and_true] at hmem
          rcases hmem with ⟨rfl, rfl, rfl⟩ | ⟨rfl, rfl, rfl⟩
          · exact ⟨1, 2, 3, by simpa using hsperm.symm, by omega, by omega,
              Or.inr (Or.inl ⟨rfl, rfl, rfl⟩)⟩
          · exact ⟨2, 7, 10, by simpa using hsperm.symm, by omega, by omega,
              Or.inr (Or.inr ⟨rfl, rfl, rfl⟩)⟩
        · rw [if_neg hcont] at hx
          have hx' : (b0 == a0 + 1 && c0 == b0 + 1) = true := hx
          rw [Bool.and_eq_true, beq_iff_eq, beq_iff_eq] at hx'
          have ha0 : 1 ≤ a0 :=
            (hv a0 (hsperm.mem_iff.mp (by simp))).1
          have hc0 : c0 ≤ 10 :=
            (hv c0 (hsperm.mem_iff.mp (by simp))).2
          exact ⟨a0, b0, c0, by simpa using hsperm.symm, by omega, by omega,
            Or.inl ⟨hx'.1, hx'.2, ha0, hc0⟩⟩
      · rintro ⟨-, a, b, c, hperm, hab, hbc, hbr⟩
        have hcomb : ([a0, b0, c0] : List Nat).Perm [a, b, c] :=
          hsperm.trans (by simpa using hperm)
        have hsorted2 : ([a, b, c] : List Nat).Sorted (· ≤ ·) := by
          simp only [List.sorted_cons, List.mem_cons, List.not_mem_nil,
            or_false, List.mem_singleton]
          refine ⟨fun x hx => ?_, ⟨fun x hx => ?_, fun x hx => hx.elim, List.sorted_nil⟩⟩
          · rcases hx with rfl | rfl
            · exact hab
            · exact le_trans hab hbc
          · rcases hx with rfl
            exact hbc
        have hsorted1 : ([a0, b0, c0] : List Nat).Sorted (· ≤ ·) := by
          simp only [List.sorted_cons, List.mem_cons, List.not_mem_nil,
            or_false, List.mem_singleton]
          refine ⟨fun x hx => ?_, ⟨fun x hx => ?_, fun x hx => hx.elim, List.sorted_nil⟩⟩
          · rcases hx with rfl | rfl
            · exact hsorted0.1
            · exact hsorted0.2.1
          · rcases hx with rfl
            exact hsorted0.2.2
        have heq : ([a0, b0, c0] : List Nat) = [a, b, c] :=
          List.eq_of_perm_of_sorted hcomb hsorted1 hsorted2
        rw [heq]
        rcases hbr with ⟨hb, hc, -, -⟩ | ⟨rfl, rfl, rfl⟩ | ⟨rfl, rfl, rfl⟩
        · by_cases hcont : SPECIAL_SEQUENCES.contains [a, b, c] = true
          · rw [if_pos hcont]
          · rw [if_neg hcont]
            show (b == a + 1 && c == b + 1) = true
            rw [Bool.and_eq_true, beq_iff_eq, beq_iff_eq]
            exact ⟨hb, hc⟩
        · rfl
        · rfl
    · rw [Bool.not_eq_true] at hrank
      rw [hrank]
      simp only [Bool.not_false, if_true]
      constructor
      · intro hx
        cases hx
      · rintro ⟨hrk, -⟩
        exfalso
        rw [List.all_eq_false] at hrank
        obtain ⟨t, ht, hf⟩ := hrank
        exact hf (by rw [beq_iff_eq]; exact hrk t ht t1 (by simp))
  · constructor
    · intro hx
      exfalso
      unfold is_valid_sequence at hx
      rw [if_pos (by simpa using hlen)] at hx
      cases hx
    · rintro ⟨-, a, b, c, hperm, -⟩
      exact absurd (by simpa using hperm.length_eq) hlen
lemma mem_can_chi_iff (h : Hand) (d : Card) (pr : List Card) :
    pr ∈ can_chi h d ↔
      ∃ i j, ∃ hi : i < h.cards.length, ∃ hj : j < h.cards.length, i < j ∧
        pr = [h.cards.get ⟨i, hi⟩, h.cards.get ⟨j, hj⟩] ∧
        is_valid_sequence [d, h.cards.get ⟨i, hi⟩, h.cards.get ⟨j, hj⟩] =
          true := by
  unfold can_chi
  rw [List.mem_flatMap]
  constructor
  · rintro ⟨i, hi_mem, hpr⟩
    rw [List.mem_range] at hi_mem
    rw [List.mem_filterMap] at hpr
    obtain ⟨j, hj_mem, hjeq⟩ := hpr
    rw [List.mem_range'_1] at hj_mem
    have hj : j < h.cards.length := by omega
    have hij : i < j := by omega
    rw [List.getElem?_eq_getElem hi_mem, List.getElem?_eq_getElem hj] at hjeq
    have hjeq' : (if is_valid_sequence [d, h.cards[i], h.cards[j]]
        then some [h.cards[i], h.cards[j]] else none) = some pr := hjeq
    by_cases hvseq : is_valid_sequence [d, h.cards[i], h.cards[j]] = true
    · rw [if_pos hvseq] at hjeq'
      refine ⟨i, j, hi_mem, hj, hij, ?_, ?_⟩
      · simpa [List.get_eq_getElem] using hjeq'.symm
      · simpa [List.get_eq_getElem] using hvseq
    · rw [if_neg (by simpa using hvseq)] at hjeq'
      cases hjeq'
  · rintro ⟨i, j, hi, hj, hij, rfl, hvseq⟩
    refine ⟨i, List.mem_range.mpr (by omega), ?_⟩
    rw [List.mem_filterMap]
    refine ⟨j, List.mem_range'_1.mpr (by omega), ?_⟩
    rw [List.getElem?_eq_getElem hi, List.getElem?_eq_getElem hj]
    show (if is_valid_sequence [d, h.cards[i], h.cards[j]]
        then some [h.cards[i], h.cards[j]] else none) = _
    rw [if_pos (by simpa [List.get_eq_getElem] using hvseq)]
    simp [List.get_eq_getElem]

/-- C7: `can_chi d` enumerates exactly the sequence responses: every
returned candidate is the pair of concealed tiles at two distinct physical
positions `i < j` forming, with `d`, a sequence in the spec's sense (same
rank; sorted values three consecutive integers within [1,10] or one of the
special triples {1,2,3}, {2,7,10}), and in particular never reuses one
physical tile twice nor mixes ranks; conversely every distinct-position
pair forming such a sequence with `d` is returned. -/
theorem can_chi_enumerates (h : Hand) (d : Card)
    (hval : ∀ c ∈ h.cards, c.valid) (hvd : d.valid) :
    (∀ pr ∈ can_chi h d,
      ∃ i j, ∃ hi : i < h.cards.length, ∃ hj : j < h.cards.length, i < j ∧
        pr = [h.cards.get ⟨i, hi⟩, h.cards.get ⟨j, hj⟩] ∧
        specValidSequence (d :: pr) ∧
        ∀ c ∈ pr, c.is_uppercase = d.is_uppercase) ∧
    (∀ i j, ∀ hi : i < h.cards.length, ∀ hj : j < h.cards.length, i < j →
      specValidSequence [d, h.cards.get ⟨i, hi⟩, h.cards.get ⟨j, hj⟩] →
      [h.cards.get ⟨i, hi⟩, h.cards.get ⟨j, hj⟩] ∈ can_chi h d) := by
  constructor
  · intro pr hpr
    obtain ⟨i, j, hi, hj, hij, rfl, hvseq⟩ := (mem_can_chi_iff h d pr).mp hpr
    have hvall : ∀ t ∈ [d, h.cards.get ⟨i, hi⟩, h.cards.get ⟨j, hj⟩],
        t.valid := by
      intro t ht
      simp only [List.mem_cons, List.not_mem_nil, or_false] at ht
      rcases ht with rfl | rfl | rfl
      · exact hvd
      · exact hval _ (by rw [List.get_eq_getElem]; exact List.getElem_mem hi)
      · exact hval _ (by rw [List.get_eq_getElem]; exact List.getElem_mem hj)
    have hspec : specValidSequence
        [d, h.cards.get ⟨i, hi⟩, h.cards.get ⟨j, hj⟩] :=
      (is_valid_sequence_iff_spec _ hvall).mp hvseq
    refine ⟨i, j, hi, hj, hij, rfl, hspec, ?_⟩
    intro c hc
    exact hspec.1 c (List.mem_cons_of_mem d hc) d (List.mem_cons_self d _)
  · intro i j hi hj hij hspec
    have hvall : ∀ t ∈ [d, h.cards.get ⟨i, hi⟩, h.cards.get ⟨j, hj⟩],
        t.valid := by
      intro t ht
      simp only [List.mem_cons, List.not_mem_nil, or_false] at ht
      rcases ht with rfl | rfl | rfl
      · exact hvd
      · exact hval _ (by rw [List.get_eq_getElem]; exact List.getElem_mem hi)
      · exact hval _ (by rw [List.get_eq_getElem]; exact List.getElem_mem hj)
    exact (mem_can_chi_iff h d _).mpr ⟨i, j, hi, hj, hij, rfl,
      (is_valid_sequence_iff_spec _ hvall).mpr hspec⟩

/-- Witness for C7: hand [minor 3, minor 4], discarded tile minor 2. -/
theorem can_chi_enumerates_witness :
    (∀ pr ∈ can_chi ⟨[⟨3, false⟩, ⟨4, false⟩], none, []⟩ ⟨2, false⟩,
      ∃ i j, ∃ hi : i <
          (⟨[⟨3, false⟩, ⟨4, false⟩], none, []⟩ : Hand).cards.length,
        ∃ hj : j <
          (⟨[⟨3, false⟩, ⟨4, false⟩], none, []⟩ : Hand).cards.length,
        i < j ∧
        pr = [(⟨[⟨3, false⟩, ⟨4, false⟩], none, []⟩ : Hand).cards.get ⟨i, hi⟩,
          (⟨[⟨3, false⟩, ⟨4, false⟩], none, []⟩ : Hand).cards.get ⟨j, hj⟩] ∧
        specValidSequence ((⟨2, false⟩ : Card) :: pr) ∧
        ∀ c ∈ pr, c.is_uppercase = (⟨2, false⟩ : Card).is_uppercase) ∧
    (∀ i j, ∀ hi : i <
        (⟨[⟨3, false⟩, ⟨4, false⟩], none, []⟩ : Hand).cards.length,
      ∀ hj : j <
        (⟨[⟨3, false⟩, ⟨4, false⟩], none, []⟩ : Hand).cards.length,
      i < j →
      specValidSequence [⟨2, false⟩,
        (⟨[⟨3, false⟩, ⟨4, false⟩], none, []⟩ : Hand).cards.get ⟨i, hi⟩,
        (⟨[⟨3, false⟩, ⟨4, false⟩], none, []⟩ : Hand).cards.get ⟨j, hj⟩] →
      [(⟨[⟨3, false⟩, ⟨4, false⟩], none, []⟩ : Hand).cards.get ⟨i, hi⟩,
        (⟨[⟨3, false⟩, ⟨4, false⟩], none, []⟩ : Hand).cards.get ⟨j, hj⟩] ∈
        can_chi ⟨[⟨3, false⟩, ⟨4, false⟩], none, []⟩ ⟨2, false⟩) :=
  can_chi_enumerates ⟨[⟨3, false⟩, ⟨4, false⟩], none, []⟩ ⟨2, false⟩
    (by decide) (by decide)

end Paohuzi
